import Mathlib

/-!
# Verification of the sw4-account-creator nonce/submission core

Shallow embedding of the Rust sources of `near/sw4-account-creator`:

* `src/utils/nonce.rs` — `new_nonce`, `retry_nonce` (the nonce reconciliation
  arithmetic on the shared `AtomicU64` counter);
* `src/create_account.rs` — `send_create_account` (parse, build actions,
  allocate a nonce via `fetch_add`, then the submit/retry loop);
* `src/utils/block_hash.rs` — `update_block_hash` (background cache refresh);
* `src/main.rs` — `FormData::normalize` and the `create_account` handler.

Machine integers (`u64`) are modelled as `Nat` with an explicit `% 2^64`
wherever the Rust arithmetic wraps (atomic `fetch_add` always wraps; the
`+ 1` in `new_nonce` wraps in release builds).  External library types
(`AccountId`, `PublicKey`, `CryptoHash`, signatures) are opaque type
parameters; fallible parsing of the external crates is abstracted as
`Option` results; the ledger RPC is driven by an explicit script of
responses, one response consumed per submission attempt.
-/

namespace SW4

/-- `2^64`, the modulus of Rust's `u64` arithmetic. -/
def U64MOD : Nat := 2 ^ 64

/-- Embeds `new_nonce` (src/utils/nonce.rs:6-8):
`std::cmp::max(nonce1, nonce2) + 1` on `u64`; the `+ 1` wraps at `2^64`
(release-build semantics). -/
def new_nonce (nonce1 nonce2 : Nat) : Nat :=
  (max nonce1 nonce2 + 1) % U64MOD

/-- Embeds `retry_nonce` (src/utils/nonce.rs:11-30).  `nonce` is the current
value of the shared `AtomicU64`.  `fetch_update` stores `new_nonce nonce ak_nonce`
and returns the previous value `prev_nonce = nonce`; the function then returns
`new_nonce prev_nonce ak_nonce` (the source comment: `fetch_update()` returns
the old value, so `new_nonce()` is called again).  `old_nonce` and `tx_nonce`
feed only a log warning when they differ (src/utils/nonce.rs:17-22) and do not
enter the arithmetic.  Result: `(new counter value, returned nonce)`. -/
def retry_nonce (nonce old_nonce tx_nonce ak_nonce : Nat) : Nat × Nat :=
  let _warns := tx_nonce != old_nonce
  let prev_nonce := nonce
  (new_nonce nonce ak_nonce, new_nonce prev_nonce ak_nonce)

/-- Embeds `nonce.fetch_add(1, Ordering::SeqCst)`: the atomic stores the
wrapped successor and returns the previous value.
Result: `(new counter value, returned previous value)`. -/
def fetch_add_one (nonce : Nat) : Nat × Nat :=
  ((nonce + 1) % U64MOD, nonce)

/-- Embeds line 62 of src/create_account.rs:
`let mut next_nonce = nonce.fetch_add(1, Ordering::SeqCst) + 1;`
(the trailing `+ 1` is `u64` addition, wrapping in release builds).
Result: `(new counter value, next_nonce)`. -/
def allocate_nonce (nonce : Nat) : Nat × Nat :=
  let r := fetch_add_one nonce
  (r.1, (r.2 + 1) % U64MOD)

/-- The returned values of a run of successive `allocate_nonce` calls on the
shared counter (the linearization of concurrent `fetch_add` operations):
`allocate_iter c n` lists the `n` nonces handed out starting from counter
value `c`. -/
def allocate_iter : Nat → Nat → List Nat
  | _, 0 => []
  | c, n + 1 =>
    let al := allocate_nonce c
    al.2 :: allocate_iter al.1 n

/-- The counter value left behind by `n` successive `allocate_nonce` calls. -/
def allocate_iter_state : Nat → Nat → Nat
  | c, 0 => c
  | c, n + 1 => allocate_iter_state (allocate_nonce c).1 n

/-- The successive counter values produced by a sequence of `retry_nonce`
calls; each list entry is an `(old_nonce, tx_nonce, ak_nonce)` argument
triple, and the trace records the counter value after each call. -/
def retry_nonce_trace : Nat → List (Nat × Nat × Nat) → List Nat
  | _, [] => []
  | c, t :: rest =>
    let rn := retry_nonce c t.1 t.2.1 t.2.2
    rn.1 :: retry_nonce_trace rn.1 rest

/-! ## Transaction data model (src/create_account.rs)

`AccountId`, `PublicKey`, `CryptoHash`, hash digests and signatures live in
external crates; they are opaque type parameters `A`, `K`, `H`, `D`, `S`.
-/

/-- `AccessKeyPermission` from `near_primitives` (external crate): only the
distinction full-access vs function-call matters here. -/
inductive AccessKeyPermission where
  | fullAccess
  | functionCall
deriving DecidableEq

/-- `AccessKey` from `near_primitives` (external crate). -/
structure AccessKey where
  nonce : Nat
  permission : AccessKeyPermission
deriving DecidableEq

/-- `AccessKey::full_access()`: nonce 0, full-access permission. -/
def AccessKey.full_access : AccessKey :=
  ⟨0, AccessKeyPermission.fullAccess⟩

/-- The three `near_primitives` action variants used by the program
(src/create_account.rs:52-61). -/
inductive Action (K : Type) where
  | createAccount
  | addKey (public_key : K) (access_key : AccessKey)
  | transfer (deposit : Nat)
deriving DecidableEq

/-- `near_primitives::transaction::Transaction`, with the fields set at
src/create_account.rs:65-72. -/
structure Transaction (A K H : Type) where
  signer_id : A
  public_key : K
  nonce : Nat
  receiver_id : A
  block_hash : H
  actions : List (Action K)
deriving DecidableEq

/-- `near_primitives::transaction::SignedTransaction`
(src/create_account.rs:75). -/
structure SignedTransaction (A K H S : Type) where
  signature : S
  transaction : Transaction A K H
deriving DecidableEq

/-- One ledger response to a `broadcast_tx_commit` call, partitioned exactly
as the match arms of src/create_account.rs:82-132 partition it:
`successValue` is `Ok` with `FinalExecutionStatus::SuccessValue`;
`failureInvalidNonce` is `Ok` with a `Failure` status carrying
`InvalidTxError::InvalidNonce`; `failureOtherStatus` is `Ok` with any other
status (the `_` arm: `NotStarted`, `Started`, any other `Failure`);
`handlerInvalidNonce` is the request-level `Err(JsonRpcError::ServerError(
HandlerError(InvalidTransaction { InvalidNonce })))`; `otherRpcError` is any
other `Err`. -/
inductive RpcResponse where
  | successValue
  | failureInvalidNonce (tx_nonce ak_nonce : Nat)
  | failureOtherStatus
  | handlerInvalidNonce (tx_nonce ak_nonce : Nat)
  | otherRpcError
deriving DecidableEq

/-- How a run of `send_create_account` ends. `ok` is `Ok(())`;
`parseAccountFailed` / `parseKeyFailed` are the two early `?` returns;
`fatalExecution` is the `Err` built from a non-nonce execution status;
`fatalRpc` is `Err(e.into())` for any other RPC error; `pending` is a
modelling artifact meaning the response script was exhausted while the
loop was still running. -/
inductive Outcome where
  | ok
  | parseAccountFailed
  | parseKeyFailed
  | fatalExecution
  | fatalRpc
  | pending
deriving DecidableEq

/-- The per-invocation values fixed before the retry loop of
`send_create_account` starts: the base signer's fields, the parsed target
account and key, the funding amount, the block hash passed in by the caller,
and the (opaque) canonical-hash and signing capabilities. -/
structure SendParams (A K H D S : Type) where
  signer_account_id : A
  signer_public_key : K
  new_account : A
  pkey : K
  funding_amount : Nat
  block_hash : H
  hashFn : Transaction A K H → D
  signFn : D → S

/-- Result of a run of `send_create_account`: how it ended, the signed
transactions submitted (one per RPC call made in the loop), and the final
value of the shared nonce counter. -/
structure RunResult (A K H S : Type) where
  outcome : Outcome
  attempts : List (SignedTransaction A K H S)
  counter : Nat

/-- The action list built at src/create_account.rs:52-61. -/
def build_actions {K : Type} (pkey : K) (funding_amount : Nat) : List (Action K) :=
  [Action.createAccount,
   Action.addKey pkey AccessKey.full_access,
   Action.transfer funding_amount]

/-- One loop iteration's transaction construction and signing
(src/create_account.rs:65-75): build the transaction with the current
`next_nonce`, hash it canonically, sign the hash with the base signer. -/
def build_signed_tx {A K H D S : Type} (p : SendParams A K H D S)
    (next_nonce : Nat) : SignedTransaction A K H S :=
  let tx : Transaction A K H :=
    ⟨p.signer_account_id, p.signer_public_key, next_nonce, p.new_account,
     p.block_hash, build_actions p.pkey p.funding_amount⟩
  ⟨p.signFn (p.hashFn tx), tx⟩

/-- The retry loop of `send_create_account` (src/create_account.rs:64-133),
driven by a script of ledger responses (one consumed per iteration).
State: the shared counter value and `next_nonce`.  The two invalid-nonce
arms (execution-status shape at lines 97-108, handler-error shape at lines
117-130) both call `retry_nonce` and continue; `SuccessValue` returns
`Ok(())`; any other status or error returns `Err` immediately. -/
def send_loop {A K H D S : Type} (p : SendParams A K H D S) :
    List RpcResponse → Nat → Nat → RunResult A K H S
  | [], counter, _ => ⟨Outcome.pending, [], counter⟩
  | r :: rest, counter, next_nonce =>
    let stx := build_signed_tx p next_nonce
    match r with
    | RpcResponse.successValue => ⟨Outcome.ok, [stx], counter⟩
    | RpcResponse.failureInvalidNonce tx_nonce ak_nonce =>
      let rn := retry_nonce counter next_nonce tx_nonce ak_nonce
      let out := send_loop p rest rn.1 rn.2
      ⟨out.outcome, stx :: out.attempts, out.counter⟩
    | RpcResponse.failureOtherStatus => ⟨Outcome.fatalExecution, [stx], counter⟩
    | RpcResponse.handlerInvalidNonce tx_nonce ak_nonce =>
      let rn := retry_nonce counter next_nonce tx_nonce ak_nonce
      let out := send_loop p rest rn.1 rn.2
      ⟨out.outcome, stx :: out.attempts, out.counter⟩
    | RpcResponse.otherRpcError => ⟨Outcome.fatalRpc, [stx], counter⟩

/-- Embeds `send_create_account` (src/create_account.rs:33-134).
`parsed_account` / `parsed_key` abstract `AccountId::from_str` /
`PublicKey::from_str` (external crates): `none` is a parse failure, which
returns an error via `?` before anything else happens.  After both parses
succeed the action list is built, the first nonce is allocated with
`fetch_add`, and the submit/retry loop runs. -/
def send_create_account {A K H D S : Type}
    (signer_account_id : A) (signer_public_key : K)
    (parsed_account : Option A) (parsed_key : Option K)
    (funding_amount : Nat) (block_hash : H)
    (hashFn : Transaction A K H → D) (signFn : D → S)
    (script : List RpcResponse) (counter : Nat) : RunResult A K H S :=
  match parsed_account with
  | none => ⟨Outcome.parseAccountFailed, [], counter⟩
  | some new_account =>
    match parsed_key with
    | none => ⟨Outcome.parseKeyFailed, [], counter⟩
    | some pkey =>
      let p : SendParams A K H D S :=
        ⟨signer_account_id, signer_public_key, new_account, pkey,
         funding_amount, block_hash, hashFn, signFn⟩
      let al := allocate_nonce counter
      send_loop p script al.1 al.2

/-! ## Block-reference cache (src/utils/block_hash.rs) -/

/-- One iteration of the `update_block_hash` loop body
(src/utils/block_hash.rs:31-43): the fetch result is either a new hash,
which replaces the cached value, or an error, which is logged and skipped
via `continue`, leaving the cached value unchanged. -/
def update_block_hash_step {H : Type} (block_hash : H) (fetched : Option H) : H :=
  match fetched with
  | some b => b
  | none => block_hash

/-- The cached value after the `update_block_hash` loop has processed a
finite prefix of its (endless) sequence of fetch results. -/
def update_block_hash_run {H : Type} (block_hash : H) (fetches : List (Option H)) : H :=
  fetches.foldl update_block_hash_step block_hash

/-! ## Form normalization and the `create_account` handler (src/main.rs) -/

/-- Rust `char::is_whitespace` (the Unicode `White_Space` property), used by
`str::trim`. -/
def isRustWhitespace (c : Char) : Bool :=
  [0x9, 0xA, 0xB, 0xC, 0xD, 0x20, 0x85, 0xA0, 0x1680,
   0x2000, 0x2001, 0x2002, 0x2003, 0x2004, 0x2005, 0x2006, 0x2007,
   0x2008, 0x2009, 0x200A, 0x2028, 0x2029, 0x202F, 0x205F, 0x3000].contains c.toNat

/-- Rust `str::trim`: remove leading and trailing whitespace.  Strings are
modelled as `List Char`. -/
def rustTrim (s : List Char) : List Char :=
  ((s.dropWhile isRustWhitespace).reverse.dropWhile isRustWhitespace).reverse

/-- `FormData` (src/main.rs:62-66): the two raw strings posted by the user. -/
structure FormData where
  account_id : List Char
  public_key : List Char
deriving DecidableEq

/-- Embeds `FormData::normalize` (src/main.rs:68-83): trim both fields; if
the trimmed `account_id` does not end with `".statelessnet"`, append
`format!("{}.{}", account_id, base_signer_account_id)`. -/
def FormData.normalize (fd : FormData) (base_signer_account_id : List Char) : FormData :=
  let account_id := rustTrim fd.account_id
  let account_id :=
    if (".statelessnet".toList).isSuffixOf account_id then account_id
    else account_id ++ ('.' :: base_signer_account_id)
  ⟨account_id, rustTrim fd.public_key⟩

/-- What the `create_account` handler (src/main.rs:117-175) produces, as far
as the claims are concerned: the result of `send_create_account`, the
normalized strings it passed to `send_create_account`, and the
`(account_id, public_key)` pair echoed by the success template
(`some` exactly when the send returned `Ok`). -/
structure HandlerResult (A K H S : Type) where
  run : RunResult A K H S
  submitted_account_id : List Char
  submitted_public_key : List Char
  echoed : Option (List Char × List Char)

/-- Embeds the `create_account` handler (src/main.rs:117-175): normalize the
form data with the base signer's account id, read the cached block hash once,
call `send_create_account` on the normalized strings (whose parsing is
abstracted by `parseA` / `parseK`), and on `Ok` render the success template
echoing the normalized pair. -/
def create_account {A K H D S : Type}
    (parseA : List Char → Option A) (parseK : List Char → Option K)
    (signer_account_id : A) (signer_public_key : K)
    (base_signer_account_id : List Char)
    (cached_block_hash : H) (funding_amount : Nat)
    (hashFn : Transaction A K H → D) (signFn : D → S)
    (script : List RpcResponse) (counter : Nat)
    (form : FormData) : HandlerResult A K H S :=
  let data := form.normalize base_signer_account_id
  let block_hash := cached_block_hash
  let r := send_create_account signer_account_id signer_public_key
    (parseA data.account_id) (parseK data.public_key)
    funding_amount block_hash hashFn signFn script counter
  ⟨r, data.account_id, data.public_key,
   match r.outcome with
   | Outcome.ok => some (data.account_id, data.public_key)
   | _ => none⟩

-- Basic computation lemmas

theorem U64MOD_pos : 0 < U64MOD := by
  norm_num [U64MOD]

theorem U64MOD_eq : U64MOD = 18446744073709551616 := by
  norm_num [U64MOD]

theorem allocate_nonce_eq (c : Nat) :
    allocate_nonce c = ((c + 1) % U64MOD, (c + 1) % U64MOD) := rfl

theorem allocate_iter_length (c n : Nat) : (allocate_iter c n).length = n := by
  induction n generalizing c with
  | zero => rfl
  | succ n ih => simp [allocate_iter, ih]

/-- Closed form for the `i`-th allocated nonce. -/
theorem allocate_iter_get? (n : Nat) : ∀ (c i : Nat), i < n →
    (allocate_iter c n).get? i = some ((c + i + 1) % U64MOD) := by
  induction n with
  | zero => intro c i h; omega
  | succ n ih =>
    intro c i h
    match i with
    | 0 => simp [allocate_iter, allocate_nonce, fetch_add_one]
    | i + 1 =>
      have hi : i < n := by omega
      simp only [allocate_iter, allocate_nonce, fetch_add_one, List.get?]
      rw [ih ((c + 1) % U64MOD) i hi]
      congr 1
      rw [U64MOD_eq]
      omega

theorem allocate_iter_state_eq (n : Nat) : ∀ c : Nat, c < U64MOD →
    allocate_iter_state c n = (c + n) % U64MOD := by
  induction n with
  | zero => intro c hc; simp [allocate_iter_state, Nat.mod_eq_of_lt hc]
  | succ n ih =>
    intro c hc
    have h1 : (c + 1) % U64MOD < U64MOD := Nat.mod_lt _ U64MOD_pos
    simp only [allocate_iter_state, allocate_nonce, fetch_add_one]
    rw [ih _ h1, U64MOD_eq]
    omega

/-! ## Helper lemmas about the submit/retry loop -/

/-- Every transaction the loop submits was built by `build_signed_tx` from
the fixed per-invocation parameters, at some nonce. -/
theorem send_loop_attempts_mem {A K H D S : Type} (p : SendParams A K H D S) :
    ∀ (script : List RpcResponse) (c n : Nat)
      (stx : SignedTransaction A K H S),
      stx ∈ (send_loop p script c n).attempts → ∃ nn, stx = build_signed_tx p nn := by
  intro script
  induction script with
  | nil =>
    intro c n stx h
    simp [send_loop] at h
  | cons r rest ih =>
    intro c n stx h
    cases r with
    | successValue =>
      exact ⟨n, by simpa [send_loop] using h⟩
    | failureInvalidNonce txn akn =>
      simp only [send_loop, List.mem_cons] at h
      rcases h with h | h
      · exact ⟨n, h⟩
      · exact ih _ _ stx h
    | failureOtherStatus =>
      exact ⟨n, by simpa [send_loop] using h⟩
    | handlerInvalidNonce txn akn =>
      simp only [send_loop, List.mem_cons] at h
      rcases h with h | h
      · exact ⟨n, h⟩
      · exact ih _ _ stx h
    | otherRpcError =>
      exact ⟨n, by simpa [send_loop] using h⟩

/-- Any projection that is constant on `build_signed_tx p` outputs is
constant across all submitted attempts. -/
theorem send_loop_attempts_map_const {A K H D S β : Type} (p : SendParams A K H D S)
    (f : SignedTransaction A K H S → β) (v : β)
    (hf : ∀ nn, f (build_signed_tx p nn) = v)
    (script : List RpcResponse) (c n : Nat) :
    ((send_loop p script c n).attempts.map f)
      = List.replicate (send_loop p script c n).attempts.length v := by
  have hmem : ∀ b ∈ (send_loop p script c n).attempts.map f, b = v := by
    intro b hb
    rw [List.mem_map] at hb
    obtain ⟨stx, hstx, rfl⟩ := hb
    obtain ⟨nn, rfl⟩ := send_loop_attempts_mem p script c n stx hstx
    exact hf nn
  calc (send_loop p script c n).attempts.map f
      = List.replicate ((send_loop p script c n).attempts.map f).length v :=
        List.eq_replicate_length.mpr hmem
    _ = List.replicate (send_loop p script c n).attempts.length v := by
        rw [List.length_map]

/-! ## Helper lemmas about the block-hash cache loop -/

theorem getLast?_cons_getD {α : Type} (b c0 : α) (l : List α) :
    ((b :: l).getLast?).getD c0 = (l.getLast?).getD b := by
  cases l with
  | nil => rfl
  | cons x xs =>
    have h : (x :: xs).getLast?.isSome := by
      rw [List.getLast?_isSome]
      simp
    obtain ⟨y, hy⟩ := Option.isSome_iff_exists.mp h
    simp [List.getLast?_cons_cons, hy]

/-- The cached value after processing any finite run of fetch results is the
most recent successful fetch, or the starting value when none succeeded. -/
theorem update_block_hash_run_eq {H : Type} (fetches : List (Option H)) :
    ∀ cached : H,
      update_block_hash_run cached fetches
        = ((fetches.filterMap id).getLast?).getD cached := by
  induction fetches with
  | nil => intro c0; rfl
  | cons f fs ih =>
    intro c0
    cases f with
    | none =>
      simp only [update_block_hash_run, List.foldl_cons] at *
      rw [show update_block_hash_step c0 (none : Option H) = c0 from rfl]
      simpa [List.filterMap_cons] using ih c0
    | some b =>
      simp only [update_block_hash_run, List.foldl_cons] at *
      rw [show update_block_hash_step c0 (some b) = b from rfl]
      rw [ih b]
      simp only [List.filterMap_cons, id]
      rw [getLast?_cons_getD]

/-! ## Claim theorems: nonce allocation and reconciliation -/

/-- C2 counterexample: the claim asserts pairwise distinctness for *any* N
concurrent `allocate` calls, but the counter is a wrapping `u64`: in a run
of `2^64 + 1` allocations starting from counter 0, the 1st call (index 0)
and the `2^64 + 1`-th call (index `2^64`) both return nonce 1 — two distinct
calls observing the same returned value. -/
theorem C2_counterexample :
    (allocate_iter 0 (U64MOD + 1)).get? 0 = some 1
    ∧ (allocate_iter 0 (U64MOD + 1)).get? U64MOD = some 1
    ∧ (0 : Nat) ≠ U64MOD := by
  refine ⟨?_, ?_, by rw [U64MOD_eq]; omega⟩
  · rw [allocate_iter_get? (U64MOD + 1) 0 0 (by omega), U64MOD_eq]
  · rw [allocate_iter_get? (U64MOD + 1) 0 U64MOD (by omega), U64MOD_eq]

/-- C2 (amended): `allocate` (the counter's `fetch_add(1)` followed by
`+ 1`) returns the new, incremented value of the shared counter; the
returned values of any sequence of at most `2^64` allocations (the
linearization of that many concurrent atomic calls — beyond `2^64` the
wrapping `u64` counter provably repeats itself) are pairwise distinct with
no lost updates (the counter advances by exactly the number of calls); and
in the concrete scenario the counter seeded at 5 hands out 6, a
`reconcile(6, 9)` returns 10 and stores 10, and the next allocation returns
11, strictly above 10. -/
theorem C2_allocate_spec :
    (∀ c : Nat, allocate_nonce c = ((c + 1) % U64MOD, (c + 1) % U64MOD))
    ∧ (∀ c n i j : Nat, i < j → j < n → n ≤ U64MOD →
        (allocate_iter c n).get? i ≠ (allocate_iter c n).get? j)
    ∧ (∀ c n : Nat, c < U64MOD → allocate_iter_state c n = (c + n) % U64MOD)
    ∧ allocate_nonce 5 = (6, 6)
    ∧ retry_nonce 6 6 6 9 = (10, 10)
    ∧ allocate_nonce 10 = (11, 11)
    ∧ 10 < 11 := by
  refine ⟨fun c => rfl, ?_, fun c n hc => allocate_iter_state_eq n c hc,
    by decide, by decide, by decide, by decide⟩
  intro c n i j hij hjn hn h
  rw [allocate_iter_get? n c i (lt_trans hij hjn),
    allocate_iter_get? n c j hjn, Option.some_inj] at h
  rw [U64MOD_eq] at h hn
  omega

/-- Witness for C2 at concrete inputs: two allocations starting from counter
0 return distinct nonces, and leave the counter advanced by 2. -/
theorem C2_allocate_spec_witness :
    (allocate_iter 0 2).get? 0 ≠ (allocate_iter 0 2).get? 1
    ∧ allocate_iter_state 0 2 = (0 + 2) % U64MOD :=
  ⟨C2_allocate_spec.2.1 0 2 0 1 (by decide) (by decide) (by decide),
   C2_allocate_spec.2.2.1 0 2 (by decide)⟩

/-- C3: `retry_nonce` atomically replaces the shared counter value `c` with
`max(c, ak_nonce) + 1` (in `u64` arithmetic) and returns exactly the value
it stored; the result depends only on the counter's prior value and
`ak_nonce`, never on `old_nonce` or `tx_nonce`. -/
theorem C3_retry_nonce_spec :
    (∀ c old tx ak : Nat,
        retry_nonce c old tx ak = ((max c ak + 1) % U64MOD, (max c ak + 1) % U64MOD))
    ∧ (∀ c ak old old' tx tx' : Nat,
        retry_nonce c old tx ak = retry_nonce c old' tx' ak) :=
  ⟨fun _ _ _ _ => rfl, fun _ _ _ _ _ _ => rfl⟩

/-- C4 counterexample: the claim quantifies over every sequence of
`retry_nonce` calls, but at counter 5 a single call whose ledger-expected
nonce is `2^64 - 1` wraps the `u64` counter to 0, which is neither
`≥ expected + 1` nor `≥` the previous counter value, refuting both the
lower bound and the non-decrease at this concrete input. -/
theorem C4_counterexample :
    retry_nonce_trace 5 [(6, 6, U64MOD - 1)] = [0]
    ∧ ¬ ((U64MOD - 1) + 1 ≤ (retry_nonce_trace 5 [(6, 6, U64MOD - 1)]).getD 0 0)
    ∧ ¬ (5 ≤ (retry_nonce_trace 5 [(6, 6, U64MOD - 1)]).getD 0 0) := by
  refine ⟨by decide, by decide, by decide⟩

/-- C4 (amended): for every sequence of `retry_nonce` calls applied to the
shared counter in which no `u64` overflow occurs (the initial counter and
every ledger-expected nonce leave room for one increment per call below
`2^64`), the counter strictly increases at every call — hence is
non-decreasing across the whole sequence — and immediately after each call
with ledger-expected nonce `expected` it is at least `expected + 1`. -/
theorem C4_reconcile_monotone (c : Nat) (L : List (Nat × Nat × Nat)) :
    c + L.length < U64MOD →
    (∀ t ∈ L, t.2.2 + L.length < U64MOD) →
    List.Chain (· < ·) c (retry_nonce_trace c L)
    ∧ ∀ k, k < L.length →
        (L.getD k (0, 0, 0)).2.2 + 1 ≤ (retry_nonce_trace c L).getD k 0 := by
  induction L generalizing c with
  | nil =>
    intro _ _
    exact ⟨List.Chain.nil, fun k hk => absurd hk (by simp)⟩
  | cons t rest ih =>
    intro h1 h2
    have ha : t.2.2 + (rest.length + 1) < U64MOD := by
      simpa using h2 t (List.mem_cons_self t rest)
    have hc1 : c + (rest.length + 1) < U64MOD := by simpa using h1
    have hnw : max c t.2.2 + 1 < U64MOD := by
      rw [U64MOD_eq] at ha hc1 ⊢; omega
    have hv : (retry_nonce c t.1 t.2.1 t.2.2).1 = max c t.2.2 + 1 := by
      simp only [retry_nonce, new_nonce]
      exact Nat.mod_eq_of_lt hnw
    have hrec := ih ((retry_nonce c t.1 t.2.1 t.2.2).1)
      (by rw [hv]; rw [U64MOD_eq] at ha hc1 ⊢; omega)
      (by intro t' ht'
          have h' := h2 t' (List.mem_cons_of_mem _ ht')
          simp only [List.length_cons] at h'
          omega)
    have hcl : c < (retry_nonce c t.1 t.2.1 t.2.2).1 := by rw [hv]; omega
    constructor
    · exact List.Chain.cons hcl hrec.1
    · intro k hk
      match k with
      | 0 =>
        simp only [List.getD_cons_zero, retry_nonce_trace]
        rw [hv]
        omega
      | k + 1 =>
        have hk' : k < rest.length := by simpa using hk
        simpa only [List.getD_cons_succ, retry_nonce_trace] using hrec.2 k hk'

/-- Witness for C4 at concrete inputs: counter 5, one reconcile call with
ledger-expected nonce 9 — the counter strictly increases to 10 ≥ 9 + 1. -/
theorem C4_reconcile_monotone_witness :
    List.Chain (· < ·) 5 (retry_nonce_trace 5 [(6, 6, 9)])
    ∧ (([((6 : Nat), (6 : Nat), (9 : Nat))]).getD 0 (0, 0, 0)).2.2 + 1
        ≤ (retry_nonce_trace 5 [(6, 6, 9)]).getD 0 0 :=
  ⟨(C4_reconcile_monotone 5 [(6, 6, 9)] (by decide) (by decide)).1,
   (C4_reconcile_monotone 5 [(6, 6, 9)] (by decide) (by decide)).2 0 (by decide)⟩

/-! ## Claim theorems: the submission workflow -/

/-- C1 counterexample: the claim says that after a `NonceConflict` the block
reference is re-read from the cache before resubmitting, so a retry may carry
a fresher value.  Concretely, let the cache hold 100 when the handler reads it
and let it refresh to 200 before the retry: the code rebuilds the retry
transaction from the same `block_hash` argument, so the second attempt still
carries 100, not the refreshed 200. -/
theorem C1_counterexample :
    ((send_create_account (0 : Nat) (0 : Nat) (some (1 : Nat)) (some (2 : Nat)) 0 (100 : Nat)
        (fun t => t.nonce) (fun d : Nat => d)
        [RpcResponse.failureInvalidNonce 6 9, RpcResponse.successValue] 5).attempts.map
      fun s => s.transaction.block_hash) = [100, 100]
    ∧ ((send_create_account (0 : Nat) (0 : Nat) (some (1 : Nat)) (some (2 : Nat)) 0 (100 : Nat)
        (fun t => t.nonce) (fun d : Nat => d)
        [RpcResponse.failureInvalidNonce 6 9, RpcResponse.successValue] 5).attempts.map
      fun s => s.transaction.block_hash).get? 1 ≠ some 200 := by
  exact ⟨by decide, by decide⟩

/-- C1 (amended): the block reference is read from the cache once per
`send_create_account` invocation, before the first submission; every attempt
in the invocation — the first and every retry after a `NonceConflict` —
carries that same block reference, which is never re-read inside the loop. -/
theorem C1_block_hash_read_once {A K H D S : Type}
    (sa : A) (sk : K) (acct : Option A) (key : Option K) (fund : Nat) (bh : H)
    (hf : Transaction A K H → D) (sf : D → S) (script : List RpcResponse) (c : Nat) :
    ((send_create_account sa sk acct key fund bh hf sf script c).attempts.map
        fun s => s.transaction.block_hash)
      = List.replicate
          (send_create_account sa sk acct key fund bh hf sf script c).attempts.length bh := by
  match acct, key with
  | none, _ => rfl
  | some a, none => rfl
  | some a, some k2 =>
    exact send_loop_attempts_map_const _ _ bh (fun _ => rfl) script _ _

/-- C5: the loop retries exactly on the two invalid-nonce shapes, which it
handles identically; a success response ends the loop with `Ok` after that
one attempt; a non-nonce execution failure or any other RPC error ends it
with `Err` after exactly that one submit call, whatever responses would have
followed; and a script of `kk` invalid-nonce rejections followed by a success
yields `Ok` after exactly `kk + 1` submit calls. -/
theorem C5_retry_iff_invalid_nonce {A K H D S : Type} (p : SendParams A K H D S) :
    (∀ (rest : List RpcResponse) (txn akn c n : Nat),
        send_loop p (RpcResponse.failureInvalidNonce txn akn :: rest) c n
          = send_loop p (RpcResponse.handlerInvalidNonce txn akn :: rest) c n)
    ∧ (∀ (rest : List RpcResponse) (c n : Nat),
        (send_loop p (RpcResponse.successValue :: rest) c n).outcome = Outcome.ok
        ∧ (send_loop p (RpcResponse.successValue :: rest) c n).attempts.length = 1)
    ∧ (∀ (rest : List RpcResponse) (c n : Nat),
        (send_loop p (RpcResponse.failureOtherStatus :: rest) c n).outcome
            = Outcome.fatalExecution
        ∧ (send_loop p (RpcResponse.failureOtherStatus :: rest) c n).attempts.length = 1)
    ∧ (∀ (rest : List RpcResponse) (c n : Nat),
        (send_loop p (RpcResponse.otherRpcError :: rest) c n).outcome = Outcome.fatalRpc
        ∧ (send_loop p (RpcResponse.otherRpcError :: rest) c n).attempts.length = 1)
    ∧ (∀ (kk txn akn c n : Nat),
        (send_loop p (List.replicate kk (RpcResponse.failureInvalidNonce txn akn)
            ++ [RpcResponse.successValue]) c n).outcome = Outcome.ok
        ∧ (send_loop p (List.replicate kk (RpcResponse.failureInvalidNonce txn akn)
            ++ [RpcResponse.successValue]) c n).attempts.length = kk + 1) := by
  refine ⟨fun _ _ _ _ _ => rfl, fun _ _ _ => ⟨rfl, rfl⟩, fun _ _ _ => ⟨rfl, rfl⟩,
    fun _ _ _ => ⟨rfl, rfl⟩, ?_⟩
  intro kk txn akn
  induction kk with
  | zero => intro c n; exact ⟨rfl, rfl⟩
  | succ kk ih =>
    intro c n
    simp only [List.replicate_succ, List.cons_append, send_loop]
    obtain ⟨ih1, ih2⟩ :=
      ih (retry_nonce c n txn akn).1 (retry_nonce c n txn akn).2
    exact ⟨ih1, by simp [ih2]⟩

/-- C6: when the target account identifier fails parsing, or the target
public key fails parsing, `send_create_account` returns the corresponding
descriptive error immediately and submits nothing — zero network calls
regardless of what the ledger would have answered. -/
theorem C6_parse_failure_no_network {A K H D S : Type}
    (sa : A) (sk : K) (key : Option K) (fund : Nat) (bh : H)
    (hf : Transaction A K H → D) (sf : D → S) (script : List RpcResponse) (c : Nat) :
    ((send_create_account sa sk (none : Option A) key fund bh hf sf script c).outcome
        = Outcome.parseAccountFailed
      ∧ (send_create_account sa sk (none : Option A) key fund bh hf sf script c).attempts = [])
    ∧ ∀ a : A,
        (send_create_account sa sk (some a) (none : Option K) fund bh hf sf script c).outcome
          = Outcome.parseKeyFailed
        ∧ (send_create_account sa sk (some a) (none : Option K) fund bh hf sf script c).attempts
          = [] :=
  ⟨⟨rfl, rfl⟩, fun _ => ⟨rfl, rfl⟩⟩

/-- C7: a failed fetch leaves the cached block hash unchanged and the refresh
loop just continues; after any run of fetch results the cache holds the most
recent successfully fetched value (or the initial value when none succeeded),
so any number of consecutive failures leaves the last good value in place. -/
theorem C7_cache_survives_fetch_failures {H : Type} (cached : H)
    (fetches : List (Option H)) (n : Nat) :
    update_block_hash_step cached (none : Option H) = cached
    ∧ update_block_hash_run cached ((none : Option H) :: fetches)
        = update_block_hash_run cached fetches
    ∧ update_block_hash_run cached fetches
        = ((fetches.filterMap id).getLast?).getD cached
    ∧ update_block_hash_run cached (List.replicate n (none : Option H)) = cached := by
  refine ⟨rfl, rfl, update_block_hash_run_eq fetches cached, ?_⟩
  rw [update_block_hash_run_eq]
  induction n with
  | zero => rfl
  | succ n ih =>
    simp only [List.replicate_succ, List.filterMap_cons, id] at ih ⊢
    exact ih

/-- C8: every transaction submitted by `send_create_account` carries the
action list `[CreateAccount, AddKey(full-access, target key), Transfer
(funding amount)]` in exactly that order, names the base signer as signer,
and is signed with the base signer's capability applied to the transaction's
canonical hash. -/
theorem C8_transaction_shape {A K H D S : Type}
    (sa : A) (sk : K) (a : A) (k2 : K) (fund : Nat) (bh : H)
    (hf : Transaction A K H → D) (sf : D → S) (script : List RpcResponse) (c : Nat) :
    ((send_create_account sa sk (some a) (some k2) fund bh hf sf script c).attempts.map
        fun s => s.transaction.actions)
      = List.replicate
          (send_create_account sa sk (some a) (some k2) fund bh hf sf script c).attempts.length
          [Action.createAccount, Action.addKey k2 AccessKey.full_access, Action.transfer fund]
    ∧ ((send_create_account sa sk (some a) (some k2) fund bh hf sf script c).attempts.map
        fun s => s.signature)
      = ((send_create_account sa sk (some a) (some k2) fund bh hf sf script c).attempts.map
        fun s => sf (hf s.transaction))
    ∧ ((send_create_account sa sk (some a) (some k2) fund bh hf sf script c).attempts.map
        fun s => s.transaction.signer_id)
      = List.replicate
          (send_create_account sa sk (some a) (some k2) fund bh hf sf script c).attempts.length sa
    ∧ ((send_create_account sa sk (some a) (some k2) fund bh hf sf script c).attempts.map
        fun s => s.transaction.public_key)
      = List.replicate
          (send_create_account sa sk (some a) (some k2) fund bh hf sf script c).attempts.length
          sk := by
  refine ⟨send_loop_attempts_map_const _ _ _ (fun _ => rfl) script _ _, ?_,
    send_loop_attempts_map_const _ _ _ (fun _ => rfl) script _ _,
    send_loop_attempts_map_const _ _ _ (fun _ => rfl) script _ _⟩
  apply List.map_congr_left
  intro stx hstx
  obtain ⟨nn, rfl⟩ := send_loop_attempts_mem _ script _ _ stx hstx
  rfl

/-- C9: a request rejected at validation consumes no nonce — if either parse
fails the shared counter is returned untouched — and the counter is first
incremented (the first nonce allocated) only once both parses have
succeeded. -/
theorem C9_no_nonce_consumed_on_parse_failure {A K H D S : Type}
    (sa : A) (sk : K) (key : Option K) (fund : Nat) (bh : H)
    (hf : Transaction A K H → D) (sf : D → S) (script : List RpcResponse) (c : Nat) :
    ((send_create_account sa sk (none : Option A) key fund bh hf sf script c).counter = c)
    ∧ (∀ a : A,
        (send_create_account sa sk (some a) (none : Option K) fund bh hf sf script c).counter
          = c)
    ∧ (∀ (a : A) (k2 : K),
        (send_create_account sa sk (some a) (some k2) fund bh hf sf [] c).counter
          = (c + 1) % U64MOD) :=
  ⟨rfl, fun _ => rfl, fun _ _ => rfl⟩

/-! ## Helper lemmas about trimming -/

theorem dropWhile_head?_false {α : Type} (p : α → Bool) (l : List α) (x : α)
    (h : (l.dropWhile p).head? = some x) : p x = false := by
  have hd := List.head?_dropWhile_not p l
  rw [h] at hd
  exact hd

/-- The first character surviving `rustTrim` is not whitespace. -/
theorem rustTrim_head?_not_ws (s : List Char) :
    ∀ x, (rustTrim s).head? = some x → isRustWhitespace x = false := by
  intro x hx
  unfold rustTrim at hx
  rw [List.head?_reverse] at hx
  obtain ⟨t, ht⟩ :=
    List.dropWhile_suffix (l := (s.dropWhile isRustWhitespace).reverse) isRustWhitespace
  have hgl : ((s.dropWhile isRustWhitespace).reverse).getLast? = some x := by
    rw [← ht, List.getLast?_append, hx]
    rfl
  rw [List.getLast?_reverse] at hgl
  exact dropWhile_head?_false _ _ _ hgl

/-- The last character surviving `rustTrim` is not whitespace. -/
theorem rustTrim_getLast?_not_ws (s : List Char) :
    ∀ x, (rustTrim s).getLast? = some x → isRustWhitespace x = false := by
  intro x hx
  unfold rustTrim at hx
  rw [List.getLast?_reverse] at hx
  exact dropWhile_head?_false _ _ _ hx

theorem match_outcome_eq_if (o : Outcome) (v : List Char × List Char) :
    (match o with | Outcome.ok => some v | _ => none)
      = if o = Outcome.ok then some v else none := by
  cases o <;> rfl

/-- C10: for every inbound form submission the handler normalizes the raw
data before any parsing or submission: both fields are whitespace-trimmed,
the base signer's account identifier is appended with a dot separator when
the trimmed identifier does not already end with `".statelessnet"`, and the
identifier the workflow actually submits (and echoes back on success) is
this normalized one — shown different from the raw input on a concrete
form. -/
theorem C10_normalize_before_submit {A K H D S : Type}
    (parseA : List Char → Option A) (parseK : List Char → Option K)
    (sa : A) (sk : K) (base : List Char) (bh : H) (fund : Nat)
    (hf : Transaction A K H → D) (sf : D → S)
    (script : List RpcResponse) (c : Nat) (form : FormData) :
    (create_account parseA parseK sa sk base bh fund hf sf script c form).submitted_account_id
      = (form.normalize base).account_id
    ∧ (create_account parseA parseK sa sk base bh fund hf sf script c form).submitted_public_key
      = (form.normalize base).public_key
    ∧ (create_account parseA parseK sa sk base bh fund hf sf script c form).run
      = send_create_account sa sk (parseA (form.normalize base).account_id)
          (parseK (form.normalize base).public_key) fund bh hf sf script c
    ∧ (create_account parseA parseK sa sk base bh fund hf sf script c form).echoed
      = (if (create_account parseA parseK sa sk base bh fund hf sf script c form).run.outcome
            = Outcome.ok
         then some ((form.normalize base).account_id, (form.normalize base).public_key)
         else none)
    ∧ (form.normalize base).public_key = rustTrim form.public_key
    ∧ (form.normalize base).account_id
      = (if (".statelessnet".toList).isSuffixOf (rustTrim form.account_id)
         then rustTrim form.account_id
         else rustTrim form.account_id ++ ('.' :: base))
    ∧ (∀ x, ((form.normalize base).public_key).head? = some x → isRustWhitespace x = false)
    ∧ (∀ x, ((form.normalize base).public_key).getLast? = some x → isRustWhitespace x = false)
    ∧ ((".statelessnet".toList).isSuffixOf (form.normalize base).account_id = true
        ∨ ('.' :: base).isSuffixOf (form.normalize base).account_id = true)
    ∧ FormData.normalize ⟨" alice ".toList, " pk ".toList⟩ ("statelessnet".toList)
      = ⟨"alice.statelessnet".toList, "pk".toList⟩
    ∧ "alice.statelessnet".toList ≠ " alice ".toList := by
  refine ⟨rfl, rfl, rfl, match_outcome_eq_if _ _, rfl, rfl, ?_, ?_, ?_, by decide, by decide⟩
  · exact rustTrim_head?_not_ws form.public_key
  · exact rustTrim_getLast?_not_ws form.public_key
  · show (".statelessnet".toList).isSuffixOf
        (if (".statelessnet".toList).isSuffixOf (rustTrim form.account_id)
         then rustTrim form.account_id
         else rustTrim form.account_id ++ ('.' :: base)) = true
      ∨ ('.' :: base).isSuffixOf
        (if (".statelessnet".toList).isSuffixOf (rustTrim form.account_id)
         then rustTrim form.account_id
         else rustTrim form.account_id ++ ('.' :: base)) = true
    by_cases hsfx : (".statelessnet".toList).isSuffixOf (rustTrim form.account_id) = true
    · left
      rw [if_pos hsfx]
      exact hsfx
    · right
      rw [if_neg hsfx, List.isSuffixOf_iff_suffix]
      exact List.suffix_append _ _

/-- Witness for C10 at a concrete form: the trimmed public key `"pk"` has a
non-whitespace first and last character. -/
theorem C10_normalize_before_submit_witness :
    isRustWhitespace 'p' = false ∧ isRustWhitespace 'k' = false :=
  ⟨(C10_normalize_before_submit (fun _ => (none : Option Nat))
      (fun _ => (none : Option Nat)) 0 0 ("statelessnet".toList) (0 : Nat) 0
      (fun t => t.nonce) (fun d : Nat => d) [] 0
      ⟨" alice ".toList, " pk ".toList⟩).2.2.2.2.2.2.1 'p' (by decide),
   (C10_normalize_before_submit (fun _ => (none : Option Nat))
      (fun _ => (none : Option Nat)) 0 0 ("statelessnet".toList) (0 : Nat) 0
      (fun t => t.nonce) (fun d : Nat => d) [] 0
      ⟨" alice ".toList, " pk ".toList⟩).2.2.2.2.2.2.2.1 'k' (by decide)⟩

end SW4
